import Mathlib

/-!
Verification of the documentation-analysis core of `docs-check`
(`src/doc-analyzer.ts`, `src/types.ts`).

Strings from the TypeScript side are modelled as `List Char`.  JSON values
produced by `JSON.parse` are modelled by the inductive `Json`; the JavaScript
notions of property access, truthiness and `Array.prototype.includes` are
given explicit definitions.  Fallible JavaScript code (property access on
`null`, `JSON.parse` throwing) is modelled with `Except`/`Option`.
-/

/-- Lowercase a character list (model of case-insensitive regex matching,
which compares both sides lower-cased). -/
def lowerL (s : List Char) : List Char := s.map Char.toLower

/-- The `containsL pat s` holds when `pat` occurs as a contiguous substring of
`s` (exact characters).  Scans every suffix, like a regex engine advancing
its start position. -/
def containsL (pat : List Char) : List Char → Bool
  | [] => pat.isPrefixOf ([] : List Char)
  | c :: t => pat.isPrefixOf (c :: t) || containsL pat t

/-- Case-insensitive substring test, the meaning of an unanchored literal
regex with the `i` flag. -/
def containsCI (pat s : List Char) : Bool := containsL (lowerL pat) (lowerL s)

/-- The `endsWithL pat s`: `s` ends with `pat` (exact characters). -/
def endsWithL (pat : List Char) : List Char → Bool
  | [] => pat == ([] : List Char)
  | c :: t => (pat == c :: t) || endsWithL pat t

/-- Case-insensitive ends-with test, the meaning of an end-anchored literal
regex with the `i` flag. -/
def endsWithCI (pat s : List Char) : Bool := endsWithL (lowerL pat) (lowerL s)

/-- JSON values, the universe of results of JavaScript `JSON.parse`. -/
inductive Json where
  | null : Json
  | bool (b : Bool) : Json
  | num (n : Int) : Json
  | str (s : List Char) : Json
  | arr (elems : List Json) : Json
  | obj (fields : List (List Char × Json)) : Json
deriving BEq

/-- JavaScript property access `v[k]` for a non-`null` receiver: an object
looks the key up among its fields, every other value yields `undefined`
(modelled as `none`).  Access on `null` throws and is handled separately in
`checkIssue`. -/
def getField : Json → List Char → Option Json
  | .obj fields, k => fields.lookup k
  | _, _ => none

/-- JavaScript truthiness of a property-access result: `undefined`, `null`,
`false`, `0` and the empty string are falsy, everything else is truthy. -/
def truthy : Option Json → Bool
  | none => false
  | some .null => false
  | some (.bool b) => b
  | some (.num n) => n != 0
  | some (.str s) => s != ([] : List Char)
  | some (.arr _) => true
  | some (.obj _) => true

/-- JavaScript `strings.includes(v)` where `strings` is a list of string
literals: true exactly when `v` is a string equal to one of them. -/
def includesStr (options : List (List Char)) : Option Json → Bool
  | some (.str s) => options.contains s
  | _ => false

/-- The four allowed values of `type` in `parseClaudeResponse`. -/
def allowedTypes : List (List Char) :=
  ["missing", "outdated", "unclear", "broken-link"].map String.toList

/-- The three allowed values of `severity` in `parseClaudeResponse`. -/
def allowedSeverities : List (List Char) :=
  ["high", "medium", "low"].map String.toList

def kType : List Char := "type".toList
def kSeverity : List Char := "severity".toList
def kEffort : List Char := "effort".toList
def kTitle : List Char := "title".toList
def kDescription : List Char := "description".toList
def kSuggestion : List Char := "suggestion".toList
def kFile : List Char := "file".toList
def kLine : List Char := "line".toList

/-- Body of the validation filter in `parseClaudeResponse`:
`issue.type && issue.severity && issue.effort && issue.title &&
issue.description && [...].includes(issue.type) &&
[...].includes(issue.severity)`, for a non-`null` element. -/
def goodIssue (j : Json) : Bool :=
  truthy (getField j kType) && truthy (getField j kSeverity) &&
  truthy (getField j kEffort) && truthy (getField j kTitle) &&
  truthy (getField j kDescription) &&
  includesStr allowedTypes (getField j kType) &&
  includesStr allowedSeverities (getField j kSeverity)

/-- The filter callback with JavaScript exception semantics: evaluating
`issue.type` on a `null` element throws a `TypeError`. -/
def checkIssue (j : Json) : Except Unit Bool :=
  match j with
  | .null => .error ()
  | _ => .ok (goodIssue j)

/-- The `Array.prototype.filter` with a callback that may throw: elements are
visited left to right and a thrown exception aborts the whole call. -/
def filterE (f : Json → Except Unit Bool) : List Json → Except Unit (List Json)
  | [] => .ok []
  | x :: t => do
    let b ← f x
    let r ← filterE f t
    pure (if b then x :: r else r)

/-- Split a character list at the first occurrence of `pat`: returns the
part before the occurrence and the part after it, or `none` when `pat` does
not occur. -/
def splitAtFirst (pat : List Char) : List Char → Option (List Char × List Char)
  | [] => if pat.isPrefixOf ([] : List Char) then some ([], []) else none
  | c :: t =>
    if pat.isPrefixOf (c :: t) then some ([], (c :: t).drop pat.length)
    else
      match splitAtFirst pat t with
      | some (pre, post) => some (c :: pre, post)
      | none => none

def fencedOpen : List Char := "```json\n".toList
def fencedClose : List Char := "\n```".toList

/-- The primary extraction path, the regex match
`response.match(/```json\n([\s\S]*?)\n```/)`: the capture of the leftmost
match, i.e. the text between the first occurrence of "```json\n" and the
first "\n```" after it (the lazy group takes the shortest extent).  Because
the delimiter "```json\n" has no self-overlap and a closing "\n```" after a
later delimiter also lies after the first one, searching from the first
delimiter is exactly the leftmost-match semantics. -/
def extractFencedJson (response : List Char) : Option (List Char) := do
  let (_, rest) ← splitAtFirst fencedOpen response
  let (cap, _) ← splitAtFirst fencedClose rest
  pure cap

/-- The character class `[\\s\\S]` of the secondary-path regex: by JavaScript
escaping rules it contains exactly backslash, `s` and `S`. -/
def isClassChar (c : Char) : Bool := c == '\\' || c == 's' || c == 'S'

/-- Greedy backtracking for `[\\s\\S]*` followed by the literal tail:
`uRev` is the reversed maximal class-character run still consumed, `suffix`
the input after it.  The longest consumption whose remainder starts with
`tail` wins; on failure one consumed character is given back.  Returns the
characters kept by the star. -/
def backOff (tail : List Char) : List Char → List Char → Option (List Char)
  | [], suffix => if tail.isPrefixOf suffix then some [] else none
  | c :: uRev, suffix =>
    if tail.isPrefixOf suffix then some ((c :: uRev).reverse)
    else backOff tail uRev (c :: suffix)

/-- The literal tail `\\\\]` of the secondary-path regex: backslash,
backslash, `]`. -/
def plainTail : List Char := ['\\', '\\', ']']

/-- Attempt to match the (mis-escaped) secondary-path regex
`/\\\[[\\s\\S]*\\\\]/` at the start of `s`: a literal backslash, a literal
`[`, then the greedy class star, then `plainTail`.  Returns the matched
text. -/
def matchPlainAt (s : List Char) : Option (List Char) :=
  if ('\\' :: '[' :: []).isPrefixOf s then
    let r := s.drop 2
    match backOff plainTail (r.takeWhile isClassChar).reverse (r.dropWhile isClassChar) with
    | some mid => some ('\\' :: '[' :: (mid ++ plainTail))
    | none => none
  else none

/-- The `response.match(/\\\[[\\s\\S]*\\\\]/)`: the leftmost match of the
secondary-path regex, scanning start positions left to right. -/
def plainJsonMatch : List Char → Option (List Char)
  | [] => none
  | c :: t =>
    match matchPlainAt (c :: t) with
    | some m => some m
    | none => plainJsonMatch t

/-- The text handed to `JSON.parse`, following the control flow of
`parseClaudeResponse`: the fenced capture when the primary regex matched
with a truthy (non-empty) capture group, otherwise the whole match of the
secondary regex, otherwise nothing (the code then throws "No JSON array
found"). -/
def jsonCandidate (response : List Char) : Option (List Char) :=
  match extractFencedJson response with
  | some cap => if cap == ([] : List Char) then plainJsonMatch response else some cap
  | none => plainJsonMatch response

/-- The synthetic issue built in the `catch` arm of `parseClaudeResponse`. -/
def fallbackIssue (response : List Char) : Json :=
  .obj
    [ (kType, .str "unclear".toList)
    , (kSeverity, .str "medium".toList)
    , (kEffort, .str "medium".toList)
    , (kTitle, .str "Analysis completed with parsing issues".toList)
    , (kDescription, .str
        ("Claude provided analysis but response format was unexpected. Raw response: ".toList
          ++ response ++ "...".toList))
    , (kSuggestion, .str "Manual review of documentation recommended".toList)
    ]

/-- The `try` block of `parseClaudeResponse`, parameterised by `JSON.parse`
(`jp s = none` models a parse exception).  Every way the block can throw is
an `error`: no candidate text, a parse exception, `.filter` called on a
non-array, or the filter callback throwing on a `null` element. -/
def parseAttempt (jp : List Char → Option Json) (response : List Char) :
    Except Unit (List Json) :=
  match jsonCandidate response with
  | none => .error ()
  | some s =>
    match jp s with
    | none => .error ()
    | some (.arr xs) => filterE checkIssue xs
    | some _ => .error ()

/-- The `parseClaudeResponse`: the `try` block, with the `catch` arm returning
the single fallback issue. -/
def parseClaudeResponse (jp : List Char → Option Json) (response : List Char) :
    List Json :=
  match parseAttempt jp response with
  | .ok issues => issues
  | .error _ => [fallbackIssue response]

/-!
## File classifier (`findDocumentationFiles` / `findCodeFiles` patterns)

The documentation patterns are eight regular expressions tested against the
relative path.  They use only literal characters, one optional character
(`docs?\//`) and an optional end anchor, so they are embedded as values of a
small pattern type with an executable matcher.
-/

/-- One atom of a classifier regex: a literal character, optionally
skippable (the `?` quantifier). -/
inductive Atom where
  | lit (c : Char) : Atom
  | opt (c : Char) : Atom
deriving BEq

/-- A classifier regex: a sequence of atoms, with `anchorEnd` for the `$`
anchor.  All eight documentation patterns have this shape. -/
structure RePat where
  atoms : List Atom
  anchorEnd : Bool

/-- Match a list of atoms against the input at the current position
(case-insensitively, the `i` flag).  An optional atom is tried consumed
first, then skipped — the backtracking semantics of `?`. -/
def matchAtoms : List Atom → List Char → Bool → Bool
  | [], s, anchorEnd => !anchorEnd || s.isEmpty
  | .lit c :: rest, s, anchorEnd =>
    match s with
    | [] => false
    | c' :: s' => (c'.toLower == c.toLower) && matchAtoms rest s' anchorEnd
  | .opt c :: rest, s, anchorEnd =>
    (match s with
      | [] => false
      | c' :: s' => (c'.toLower == c.toLower) && matchAtoms rest s' anchorEnd)
    || matchAtoms rest s anchorEnd

/-- The `RegExp.prototype.test`: try the pattern at every start position, left
to right. -/
def reTest (p : RePat) : List Char → Bool
  | [] => matchAtoms p.atoms [] p.anchorEnd
  | c :: t => matchAtoms p.atoms (c :: t) p.anchorEnd || reTest p t

/-- Atoms of a plain literal string pattern. -/
def litAtoms (s : List Char) : List Atom := s.map Atom.lit

/-- The eight `docPatterns` of `findDocumentationFiles`:
`/\.md$/i`, `/\.rst$/i`, `/\.txt$/i`, `/readme/i`, `/changelog/i`,
`/contributing/i`, `/license/i`, `/docs?\//i`. -/
def docPatterns : List RePat :=
  [ ⟨litAtoms ".md".toList, true⟩
  , ⟨litAtoms ".rst".toList, true⟩
  , ⟨litAtoms ".txt".toList, true⟩
  , ⟨litAtoms "readme".toList, false⟩
  , ⟨litAtoms "changelog".toList, false⟩
  , ⟨litAtoms "contributing".toList, false⟩
  , ⟨litAtoms "license".toList, false⟩
  , ⟨litAtoms "doc".toList ++ [Atom.opt 's'] ++ litAtoms "/".toList, false⟩
  ]

/-- The `docPatterns.some((pattern) => pattern.test(relativePath))`. -/
def docMatch (path : List Char) : Bool := docPatterns.any (fun p => reTest p path)

/-- The code-file patterns of `findCodeFiles`:
`/\.(js|jsx|ts|tsx|py|java|cpp|c|h|cs|php|rb|go|rust|rs)$/i` is an
end-anchored alternation of literal suffixes, and the four project
descriptors are end-anchored literals. -/
def codeExts : List (List Char) :=
  [".js", ".jsx", ".ts", ".tsx", ".py", ".java", ".cpp", ".c", ".h", ".cs",
   ".php", ".rb", ".go", ".rust", ".rs"].map String.toList

/-- The `codePatterns.some((pattern) => pattern.test(relativePath))`. -/
def codeMatch (path : List Char) : Bool :=
  codeExts.any (fun e => endsWithCI e path) ||
  endsWithCI "package.json".toList path ||
  endsWithCI "requirements.txt".toList path ||
  endsWithCI "Cargo.toml".toList path ||
  endsWithCI "pom.xml".toList path

/-!
## Repository scanner (`scanDirectory` in both find functions)
-/

/-- A directory tree as `fs.readdir` with `withFileTypes` exposes it:
entries in listing order, each a file or a directory. -/
inductive FsEntry where
  | file (name : List Char) : FsEntry
  | dir (name : List Char) (entries : List FsEntry) : FsEntry

/-- The `scanDirectory`: depth-first traversal in listing order, producing each
visited file's path relative to the root.  A directory whose name is in
`skip` is not descended into (its whole subtree is skipped); all other
entries are visited exactly once. -/
def scanList (skip : List (List Char)) (pre : List Char) : List FsEntry → List (List Char)
  | [] => []
  | .file n :: rest => (pre ++ n) :: scanList skip pre rest
  | .dir n sub :: rest =>
    (if skip.contains n then [] else scanList skip (pre ++ n ++ "/".toList) sub)
      ++ scanList skip pre rest

/-- The skip list of `findDocumentationFiles`. -/
def docSkipDirs : List (List Char) :=
  ["node_modules", ".git", "dist", "build", ".next", "coverage"].map String.toList

/-- The skip list of `findCodeFiles` (two more entries than the
documentation one). -/
def codeSkipDirs : List (List Char) :=
  ["node_modules", ".git", "dist", "build", ".next", "coverage", "target",
   "__pycache__"].map String.toList

/-- The `findDocumentationFiles`: scan, keep paths matching the documentation
patterns, truncate to 50. -/
def findDocumentationFiles (root : List FsEntry) : List (List Char) :=
  ((scanList docSkipDirs [] root).filter docMatch).take 50

/-- The `findCodeFiles`: scan with the larger skip list, keep paths matching
the code patterns, truncate to 50. -/
def findCodeFiles (root : List FsEntry) : List (List Char) :=
  ((scanList codeSkipDirs [] root).filter codeMatch).take 50

/-!
## Typed issue layer (`types.ts`), ranking and summary
-/

/-- The `DocumentationIssue.type` as declared in `types.ts`. -/
inductive IssueType where
  | missing | outdated | unclear | brokenLink
deriving DecidableEq

/-- The `DocumentationIssue.severity` as declared in `types.ts`. -/
inductive Severity where
  | high | medium | low
deriving DecidableEq

/-- The `DocumentationIssue.effort` as declared in `types.ts`. -/
inductive Effort where
  | high | medium | low
deriving DecidableEq

/-- The `DocumentationIssue` of `types.ts`. -/
structure DocumentationIssue where
  issueType : IssueType
  severity : Severity
  effort : Effort
  title : List Char
  description : List Char
  suggestion : List Char
  file : Option (List Char) := none
  line : Option Int := none

/-- The `GitHubRepository` of `types.ts`. -/
structure GitHubRepository where
  owner : List Char
  repo : List Char
  url : List Char

/-- The `summary` of `AnalysisResult` in `types.ts`. -/
structure Summary where
  totalIssues : Nat
  highSeverity : Nat
  mediumSeverity : Nat
  lowSeverity : Nat

/-- The `AnalysisResult` of `types.ts`. -/
structure AnalysisResult where
  repository : GitHubRepository
  issues : List DocumentationIssue
  summary : Summary
  timestamp : List Char

/-- The `severityOrder = { high: 0, medium: 1, low: 2 }`. -/
def severityOrder : Severity → Nat
  | .high => 0
  | .medium => 1
  | .low => 2

/-- The `effortOrder = { low: 0, medium: 1, high: 2 }`. -/
def effortOrder : Effort → Nat
  | .low => 0
  | .medium => 1
  | .high => 2

/-- The comparator passed to `issues.sort` in `analyzeDocumentation`. -/
def issueCompare (a b : DocumentationIssue) : Int :=
  if a.severity ≠ b.severity then
    (severityOrder a.severity : Int) - (severityOrder b.severity : Int)
  else
    (effortOrder a.effort : Int) - (effortOrder b.effort : Int)

/-- The `issues.sort(comparator)`: ECMAScript requires `Array.prototype.sort`
to be stable, so it is a stable sort by the preorder `issueCompare · · ≤ 0`. -/
def sortIssues (l : List DocumentationIssue) : List DocumentationIssue :=
  l.mergeSort (fun a b => decide (issueCompare a b ≤ 0))

/-- The `generateSummary`. -/
def generateSummary (issues : List DocumentationIssue) : Summary :=
  { totalIssues := issues.length
  , highSeverity := (issues.filter (fun i => i.severity = Severity.high)).length
  , mediumSeverity := (issues.filter (fun i => i.severity = Severity.medium)).length
  , lowSeverity := (issues.filter (fun i => i.severity = Severity.low)).length }

/-- The pure tail of `analyzeDocumentation`: sort the issues produced by
the Claude analysis, build the summary from the sorted list, assemble the
result.  The issue list and the timestamp come from effectful stages and
are parameters here. -/
def analyzeDocumentationCore (repository : GitHubRepository)
    (issues : List DocumentationIssue) (timestamp : List Char) : AnalysisResult :=
  let sorted := sortIssues issues
  { repository := repository
  , issues := sorted
  , summary := generateSummary sorted
  , timestamp := timestamp }

/-!
## Prompt builder (`buildAnalysisPrompt`)
-/

/-- The string appended for one documentation file in the
`buildAnalysisPrompt` loop:
`` `\n--- ${filePath} ---\n${content.slice(0, 2000)}${content.length > 2000 ? "...[truncated]" : ""}\n` ``. -/
def fileSection (filePath content : List Char) : List Char :=
  "\n--- ".toList ++ filePath ++ " ---\n".toList ++ content.take 2000 ++
  (if 2000 < content.length then "...[truncated]".toList else []) ++ "\n".toList

/-- The part of the prompt before the per-file loop (role preamble and code
structure). -/
def promptHeader (codeStructure : List Char) : List Char :=
  "You are a documentation analysis expert. Please analyze the following repository's documentation for completeness, accuracy, and clarity.\n\nHere is the project structure:\n".toList
    ++ codeStructure ++ "\n\nHere are the documentation files:\n".toList

/-- The instruction block appended after the per-file loop.  Its exact text
plays no role in the verified properties; what matters is that it is a
fixed suffix. -/
def promptFooter : List Char :=
  "\n\nPlease analyze the documentation and identify issues in the following categories:".toList

/-- The `buildAnalysisPrompt`: header, then the loop `prompt += fileSection`,
then the fixed footer. -/
def buildAnalysisPrompt (docs : List (List Char × List Char)) (codeStructure : List Char) :
    List Char :=
  (docs.foldl (fun acc p => acc ++ fileSection p.1 p.2) (promptHeader codeStructure))
    ++ promptFooter

/-!
## Auxiliary definitions for the verified properties
-/

/-- The order the ranker contract asks for: primary key severity with
`high` before `medium` before `low` (ascending `severityOrder`), secondary
key effort with `low` before `medium` before `high` (ascending
`effortOrder`). -/
def issueLe (a b : DocumentationIssue) : Prop :=
  severityOrder a.severity < severityOrder b.severity ∨
    (a.severity = b.severity ∧ effortOrder a.effort ≤ effortOrder b.effort)

/-- Split a path at `/` separators. -/
def splitSlash : List Char → List (List Char)
  | [] => [[]]
  | c :: t =>
    match splitSlash t with
    | seg :: rest => if c == '/' then [] :: seg :: rest else (c :: seg) :: rest
    | [] => [[c]]

/-- The path's filename: the component after the last `/`. -/
def lastSegment (path : List Char) : List Char := (splitSlash path).getLastD []

/-- The path's directory components: every component before the filename. -/
def dirSegments (path : List Char) : List (List Char) := (splitSlash path).dropLast

/-- Modelled from the spec's words (claim C7), for comparison against the
code's `docMatch`: the path ends in `.md`/`.rst`/`.txt` (case-insensitive),
or the *filename* contains `readme`/`changelog`/`contributing`/`license`
(case-insensitive), or the path contains a `docs` or `doc` *directory
segment*. -/
def docPredSpec (path : List Char) : Bool :=
  endsWithCI ".md".toList path || endsWithCI ".rst".toList path ||
  endsWithCI ".txt".toList path ||
  containsCI "readme".toList (lastSegment path) ||
  containsCI "changelog".toList (lastSegment path) ||
  containsCI "contributing".toList (lastSegment path) ||
  containsCI "license".toList (lastSegment path) ||
  (dirSegments path).any (fun seg => lowerL seg == "docs".toList || lowerL seg == "doc".toList)

/-- No directory anywhere in the forest is named `target` or `__pycache__`
(the two entries by which the code scan's skip list exceeds the
documentation scan's). -/
def noExtraDirs : List FsEntry → Bool
  | [] => true
  | .file _ :: rest => noExtraDirs rest
  | .dir n sub :: rest =>
    !(n == "target".toList) && !(n == "__pycache__".toList) &&
    noExtraDirs sub && noExtraDirs rest

/-!
## Concrete test inputs
-/

/-- A fully valid parsed issue element, the first element of the spec's
Response Parser scenario. -/
def objA : Json :=
  .obj
    [ (kType, .str "missing".toList)
    , (kSeverity, .str "high".toList)
    , (kEffort, .str "low".toList)
    , (kTitle, .str "A".toList)
    , (kDescription, .str "d".toList)
    ]

/-- The second element of the spec's Response Parser scenario: valid except
that `title` is absent. -/
def objNoTitle : Json :=
  .obj
    [ (kType, .str "missing".toList)
    , (kSeverity, .str "low".toList)
    , (kEffort, .str "low".toList)
    , (kDescription, .str "d2".toList)
    ]

/-- An element with all five required fields *present* and allowed `type`
and `severity`, but with `title` the empty string (falsy in JavaScript). -/
def objEmptyTitle : Json :=
  .obj
    [ (kType, .str "missing".toList)
    , (kSeverity, .str "high".toList)
    , (kEffort, .str "low".toList)
    , (kTitle, .str [])
    , (kDescription, .str "d".toList)
    ]

/-- A valid element carrying `line: 0` — present but not a positive
integer. -/
def objLineZero : Json :=
  .obj
    [ (kType, .str "missing".toList)
    , (kSeverity, .str "high".toList)
    , (kEffort, .str "low".toList)
    , (kTitle, .str "A".toList)
    , (kDescription, .str "d".toList)
    , (kLine, .num 0)
    ]

/-- A valid element whose `effort` is the given string (used to show that
`effort` is not checked against the three-value set). -/
def objWithEffort (s : List Char) : Json :=
  .obj
    [ (kType, .str "missing".toList)
    , (kSeverity, .str "high".toList)
    , (kEffort, .str s)
    , (kTitle, .str "A".toList)
    , (kDescription, .str "d".toList)
    ]

/-- A response with a fenced JSON block whose capture is the non-empty text
`[]` — with a stubbed `JSON.parse` the capture's content is irrelevant. -/
def respFenced : List Char := "```json\n[]\n```".toList

/-- A response with no fenced block and no backslashes, containing a bare,
bracket-delimited, valid JSON array of one issue in plain prose. -/
def respC5 : List Char :=
  ("Here are the issues: [\x7b\"type\": \"missing\", \"severity\": \"high\", " ++
   "\"effort\": \"low\", \"title\": \"A\", \"description\": \"d\", " ++
   "\"suggestion\": \"s\"\x7d]").toList

/-- A directory forest with one file inside a `target` directory. -/
def exTargetTree : List FsEntry :=
  [ .dir "target".toList [ .file "notes.md".toList ] ]

/-- A small forest with no `target`/`__pycache__` directories. -/
def exPlainTree : List FsEntry :=
  [ .file "README.md".toList, .dir "src".toList [ .file "a.ts".toList ] ]

/-- One-entry documentation content mapping for the prompt-builder witness. -/
def docsW : List (List Char × List Char) := [("README.md".toList, "hello".toList)]

/-!
## Theorems
-/

theorem length_filter_severity_partition (l : List DocumentationIssue) :
    (l.filter (fun i => i.severity = Severity.high)).length
      + (l.filter (fun i => i.severity = Severity.medium)).length
      + (l.filter (fun i => i.severity = Severity.low)).length = l.length := by
  induction l with
  | nil => simp
  | cons a t ih =>
    cases h : a.severity <;> simp [List.filter_cons, h] <;> omega

/-- C1: for every `AnalysisResult` built by `analyzeDocumentation`,
`summary.totalIssues` equals `issues.length`, and the three severity
buckets sum to `totalIssues` (in particular, for an empty issue list all
four counts are `0`). -/
theorem analyzeDocumentation_summary_invariant (repository : GitHubRepository)
    (issues : List DocumentationIssue) (timestamp : List Char) :
    (analyzeDocumentationCore repository issues timestamp).summary.totalIssues
        = (analyzeDocumentationCore repository issues timestamp).issues.length
      ∧ (analyzeDocumentationCore repository issues timestamp).summary.highSeverity
          + (analyzeDocumentationCore repository issues timestamp).summary.mediumSeverity
          + (analyzeDocumentationCore repository issues timestamp).summary.lowSeverity
        = (analyzeDocumentationCore repository issues timestamp).summary.totalIssues := by
  refine ⟨rfl, ?_⟩
  simpa [analyzeDocumentationCore, generateSummary] using
    length_filter_severity_partition (sortIssues issues)

theorem filterE_ok (xs : List Json) (h : ∀ j ∈ xs, j ≠ Json.null) :
    filterE checkIssue xs = .ok (xs.filter goodIssue) := by
  induction xs with
  | nil => rfl
  | cons a t ih =>
    have ha : a ≠ Json.null := h a (by simp)
    have ht : ∀ j ∈ t, j ≠ Json.null := fun j hj => h j (by simp [hj])
    have hca : checkIssue a = .ok (goodIssue a) := by
      cases a <;> first | exact absurd rfl ha | rfl
    simp only [filterE, hca, ih ht, List.filter_cons, bind, pure]
    by_cases hg : goodIssue a = true <;> simp [hg, Except.bind, Except.pure]

theorem parse_filter_eq (jp : List Char → Option Json) (response cap : List Char)
    (xs : List Json) (h1 : extractFencedJson response = some cap) (h2 : cap ≠ [])
    (h3 : jp cap = some (Json.arr xs)) (h4 : ∀ j ∈ xs, j ≠ Json.null) :
    parseClaudeResponse jp response = xs.filter goodIssue := by
  have hc : jsonCandidate response = some cap := by
    simp [jsonCandidate, h1, h2]
  simp [parseClaudeResponse, parseAttempt, hc, h3, filterE_ok xs h4]

/-- C3 (amended): for every successfully parsed JSON array none of whose
elements is `null`, the parser keeps exactly the elements whose five
required fields are present with truthy values and whose `type` and
`severity` are allowed, silently dropping the rest; the batch is not
rejected.  (A `null` element or a falsy-but-present field behaves
differently — see the counterexample.) -/
theorem parseClaudeResponse_lenient_validation (jp : List Char → Option Json)
    (response cap : List Char) (xs : List Json)
    (h1 : extractFencedJson response = some cap) (h2 : cap ≠ [])
    (h3 : jp cap = some (Json.arr xs)) (h4 : ∀ j ∈ xs, j ≠ Json.null) :
    parseClaudeResponse jp response = xs.filter goodIssue :=
  parse_filter_eq jp response cap xs h1 h2 h3 h4

/-- C3 witness: the spec's Response Parser scenario — a parsed array with
one fully valid issue titled "A" and one issue missing `title` yields
exactly the issue titled "A". -/
theorem parseClaudeResponse_lenient_validation_witness :
    parseClaudeResponse (fun _ => some (Json.arr [objA, objNoTitle])) respFenced = [objA] := by
  have h := parseClaudeResponse_lenient_validation
    (fun _ => some (Json.arr [objA, objNoTitle])) respFenced ("[]".toList)
    [objA, objNoTitle] rfl (by decide) rfl ?_
  · exact h.trans (by rfl)
  · intro j hj
    simp only [List.mem_cons, List.not_mem_nil, or_false] at hj
    rcases hj with rfl | rfl <;> simp [objA, objNoTitle]

/-- C3 counterexample: the claim as stated is false.  `objEmptyTitle` has
all five required fields present and allowed `type`/`severity`, yet it is
dropped (JavaScript truthiness rejects the empty-string `title`); and a
`null` array element makes the property access in the filter throw, so the
whole batch is replaced by the single fallback issue instead of the `null`
being dropped. -/
theorem parseClaudeResponse_validation_counterexample :
    (getField objEmptyTitle kType = some (.str "missing".toList)
      ∧ getField objEmptyTitle kSeverity = some (.str "high".toList)
      ∧ getField objEmptyTitle kEffort = some (.str "low".toList)
      ∧ getField objEmptyTitle kTitle = some (.str [])
      ∧ getField objEmptyTitle kDescription = some (.str "d".toList))
    ∧ parseClaudeResponse (fun _ => some (Json.arr [objEmptyTitle])) respFenced = []
    ∧ parseClaudeResponse (fun _ => some (Json.arr [objA, Json.null])) respFenced
        = [fallbackIssue respFenced] :=
  ⟨⟨rfl, rfl, rfl, rfl, rfl⟩, rfl, rfl⟩

/-- C4: whenever no candidate JSON text is found, or `JSON.parse` throws on
the found candidate, `parseClaudeResponse` returns exactly one fallback
issue of type `unclear`, severity `medium`, effort `medium`, with the
fixed parsing-problem title, a description embedding the raw response, and
the generic manual-review suggestion. -/
theorem parseClaudeResponse_fallback (jp : List Char → Option Json) (response : List Char)
    (h : jsonCandidate response = none
      ∨ ∃ s, jsonCandidate response = some s ∧ jp s = none) :
    parseClaudeResponse jp response = [fallbackIssue response]
    ∧ getField (fallbackIssue response) kType = some (.str "unclear".toList)
    ∧ getField (fallbackIssue response) kSeverity = some (.str "medium".toList)
    ∧ getField (fallbackIssue response) kEffort = some (.str "medium".toList)
    ∧ getField (fallbackIssue response) kTitle
        = some (.str "Analysis completed with parsing issues".toList)
    ∧ (∃ pre post, getField (fallbackIssue response) kDescription
        = some (.str (pre ++ response ++ post)))
    ∧ getField (fallbackIssue response) kSuggestion
        = some (.str "Manual review of documentation recommended".toList) := by
  refine ⟨?_, rfl, rfl, rfl, rfl, ⟨_, _, rfl⟩, rfl⟩
  rcases h with h | ⟨s, hs, hjp⟩
  · simp [parseClaudeResponse, parseAttempt, h]
  · simp [parseClaudeResponse, parseAttempt, hs, hjp]

/-- C4 witness: a response with no JSON anywhere yields the single
fallback issue. -/
theorem parseClaudeResponse_fallback_witness :
    parseClaudeResponse (fun _ => none) "hello".toList = [fallbackIssue "hello".toList] :=
  (parseClaudeResponse_fallback (fun _ => none) "hello".toList (Or.inl rfl)).1

/-- C9 (amended): the parser never inspects `line`; every element kept by
the validation filter is returned unchanged, whatever its `line` value. -/
theorem parseClaudeResponse_line_unvalidated (jp : List Char → Option Json)
    (response cap : List Char) (xs : List Json) (j : Json)
    (h1 : extractFencedJson response = some cap) (h2 : cap ≠ [])
    (h3 : jp cap = some (Json.arr xs)) (h4 : ∀ k ∈ xs, k ≠ Json.null)
    (h5 : j ∈ xs) (h6 : goodIssue j = true) :
    j ∈ parseClaudeResponse jp response := by
  rw [parse_filter_eq jp response cap xs h1 h2 h3 h4]
  exact List.mem_filter.mpr ⟨h5, h6⟩

/-- C9 witness: a parsed element with `line: 0` is emitted. -/
theorem parseClaudeResponse_line_unvalidated_witness :
    objLineZero ∈ parseClaudeResponse (fun _ => some (Json.arr [objLineZero])) respFenced := by
  refine parseClaudeResponse_line_unvalidated
    (fun _ => some (Json.arr [objLineZero])) respFenced ("[]".toList) [objLineZero]
    objLineZero rfl (by decide) rfl ?_ (by simp) rfl
  intro k hk
  simp only [List.mem_cons, List.not_mem_nil, or_false] at hk
  subst hk
  simp [objLineZero]

/-- C9 counterexample: the claim as stated is false — the parser emits an
issue whose `line` is present and equal to `0`, which is not a positive
integer. -/
theorem parseClaudeResponse_line_counterexample :
    parseClaudeResponse (fun _ => some (Json.arr [objLineZero])) respFenced = [objLineZero]
    ∧ getField objLineZero kLine = some (Json.num 0)
    ∧ ¬ (0 : Int) > 0 :=
  ⟨rfl, rfl, by decide⟩

/-- C10: `effort` is only checked for truthiness, not membership in
`high`/`medium`/`low`: the element `objWithEffort "whenever"` passes
validation and is returned with its out-of-range effort, and in general any
non-empty effort string passes. -/
theorem effort_not_validated :
    getField (objWithEffort "whenever".toList) kEffort = some (.str "whenever".toList)
    ∧ (["high", "medium", "low"].map String.toList).contains "whenever".toList = false
    ∧ parseClaudeResponse (fun _ => some (Json.arr [objWithEffort "whenever".toList])) respFenced
        = [objWithEffort "whenever".toList]
    ∧ ∀ s : List Char, s ≠ [] → goodIssue (objWithEffort s) = true := by
  refine ⟨rfl, rfl, rfl, ?_⟩
  intro s hs
  cases s with
  | nil => exact absurd rfl hs
  | cons c t => rfl

/-- C10 witness: the general part of `effort_not_validated` at the
non-empty effort string "x". -/
theorem effort_not_validated_witness :
    ("x".toList ≠ ([] : List Char)) ∧ goodIssue (objWithEffort "x".toList) = true :=
  ⟨by decide, effort_not_validated.2.2.2 "x".toList (by decide)⟩

set_option maxRecDepth 8192 in
/-- C5 (code bug): `respC5` contains a bare, bracket-delimited, valid JSON
array of one issue and no fenced block, yet neither extraction path finds
any candidate text — the mis-escaped secondary regex `/\\\[[\\s\\S]*\\\\]/`
requires literal backslashes — so even with a `JSON.parse` that succeeds on
every input the parser emits the fallback issue instead of the parsed
array. -/
theorem secondary_path_never_matches :
    respC5.contains '[' = true
    ∧ respC5.contains ']' = true
    ∧ extractFencedJson respC5 = none
    ∧ plainJsonMatch respC5 = none
    ∧ parseClaudeResponse (fun _ => some (Json.arr [objA])) respC5 = [fallbackIssue respC5] :=
  ⟨by decide, by decide, by decide, by decide, rfl⟩

theorem foldl_append_eq_join (f : List Char × List Char → List Char) :
    ∀ (docs : List (List Char × List Char)) (acc : List Char),
      docs.foldl (fun a p => a ++ f p) acc = acc ++ (docs.map f).flatten
  | [], acc => by simp
  | p :: t, acc => by
    simp [List.foldl_cons, foldl_append_eq_join f t (acc ++ f p), List.append_assoc]

/-- C8: every file of the content mapping appears in the built prompt as a
contiguous block `\n--- <path> ---\n<content'>\n`; the embedded content is
`content.take 2000` (never more than 2000 characters, and the unmodified
content when it fits the budget), and the block carries the
`...[truncated]` marker directly after the content exactly when the
content exceeds 2000 characters. -/
theorem buildAnalysisPrompt_sections (docs : List (List Char × List Char))
    (codeStructure p c : List Char) (h : (p, c) ∈ docs) :
    (∃ pre post, buildAnalysisPrompt docs codeStructure = pre ++ fileSection p c ++ post)
    ∧ (c.take 2000).length ≤ 2000
    ∧ (c.length ≤ 2000 →
        fileSection p c = "\n--- ".toList ++ p ++ " ---\n".toList ++ c ++ "\n".toList)
    ∧ (2000 < c.length →
        fileSection p c = "\n--- ".toList ++ p ++ " ---\n".toList ++ c.take 2000
          ++ "...[truncated]".toList ++ "\n".toList) := by
  refine ⟨?_, ?_, ?_, ?_⟩
  · obtain ⟨l1, l2, rfl⟩ := List.append_of_mem h
    refine ⟨promptHeader codeStructure ++ (l1.map (fun q => fileSection q.1 q.2)).flatten,
            ((l2.map (fun q => fileSection q.1 q.2)).flatten) ++ promptFooter, ?_⟩
    simp [buildAnalysisPrompt, foldl_append_eq_join (fun q => fileSection q.1 q.2),
          List.append_assoc]
  · simp [List.length_take]
  · intro hle
    have hnot : ¬ 2000 < c.length := by omega
    simp [fileSection, hnot, List.take_of_length_le hle]
  · intro hgt
    simp [fileSection, hgt]

/-- C8 witness: the single-file mapping `docsW` with a 5-character content
fits the budget: its block appears in the prompt, is at most 2000
characters of content, and carries no marker. -/
theorem buildAnalysisPrompt_sections_witness :
    (∃ pre post, buildAnalysisPrompt docsW [] =
        pre ++ fileSection "README.md".toList "hello".toList ++ post)
    ∧ ("hello".toList.take 2000).length ≤ 2000
    ∧ ("hello".toList.length ≤ 2000 →
        fileSection "README.md".toList "hello".toList =
          "\n--- ".toList ++ "README.md".toList ++ " ---\n".toList ++ "hello".toList
            ++ "\n".toList)
    ∧ (2000 < "hello".toList.length →
        fileSection "README.md".toList "hello".toList =
          "\n--- ".toList ++ "README.md".toList ++ " ---\n".toList
            ++ "hello".toList.take 2000 ++ "...[truncated]".toList ++ "\n".toList) :=
  buildAnalysisPrompt_sections docsW [] "README.md".toList "hello".toList (by simp [docsW])

theorem isPrefixOf_append_eq (xs ys : List Char) :
    ∀ s : List Char, (xs ++ ys).isPrefixOf s
      = (xs.isPrefixOf s && ys.isPrefixOf (s.drop xs.length)) := by
  induction xs with
  | nil => intro s; simp
  | cons x xs ih =>
    intro s
    cases s with
    | nil => simp [List.isPrefixOf]
    | cons c t => simp [List.isPrefixOf, ih t, Bool.and_assoc]

theorem litAtoms_nil : litAtoms [] = [] := rfl

theorem litAtoms_cons (c : Char) (cs : List Char) :
    litAtoms (c :: cs) = Atom.lit c :: litAtoms cs := rfl

theorem lowerL_nil : lowerL [] = [] := rfl

theorem lowerL_cons (c : Char) (cs : List Char) :
    lowerL (c :: cs) = c.toLower :: lowerL cs := rfl

theorem matchAtoms_append_lits (cs : List Char) (rest : List Atom) :
    ∀ (s : List Char) (ae : Bool),
      matchAtoms (litAtoms cs ++ rest) s ae
        = ((lowerL cs).isPrefixOf (lowerL s) && matchAtoms rest (s.drop cs.length) ae) := by
  induction cs with
  | nil => intro s ae; simp [litAtoms_nil, lowerL_nil]
  | cons c cs ih =>
    intro s ae
    cases s with
    | nil => simp [litAtoms_cons, lowerL_cons, matchAtoms, List.isPrefixOf]
    | cons c' t =>
      show ((c'.toLower == c.toLower) && matchAtoms (litAtoms cs ++ rest) t ae)
          = (((c.toLower == c'.toLower) && (lowerL cs).isPrefixOf (lowerL t))
              && matchAtoms rest (t.drop cs.length) ae)
      rw [ih t ae, Bool.beq_comm, Bool.and_assoc]

theorem matchAtoms_lits_eq (cs s : List Char) (ae : Bool) :
    matchAtoms (litAtoms cs) s ae
      = ((lowerL cs).isPrefixOf (lowerL s) && matchAtoms [] (s.drop cs.length) ae) := by
  have h := matchAtoms_append_lits cs [] s ae
  rwa [List.append_nil] at h

theorem prefix_drop_isEmpty_eq (pat : List Char) :
    ∀ s : List Char, (pat.isPrefixOf s && (s.drop pat.length).isEmpty) = (pat == s) := by
  induction pat with
  | nil =>
    intro s
    cases s <;> simp [List.isPrefixOf]
  | cons p ps ih =>
    intro s
    cases s with
    | nil => simp [List.isPrefixOf]
    | cons c t =>
      calc ((p :: ps).isPrefixOf (c :: t) && ((c :: t).drop (p :: ps).length).isEmpty)
          = (p == c && (ps.isPrefixOf t && (t.drop ps.length).isEmpty)) := by
            show ((p == c && ps.isPrefixOf t) && (t.drop ps.length).isEmpty) = _
            rw [Bool.and_assoc]
        _ = (p == c && (ps == t)) := by rw [ih t]
        _ = (p :: ps == c :: t) := rfl

theorem reTest_lits (cs : List Char) :
    ∀ s : List Char, reTest ⟨litAtoms cs, false⟩ s = containsCI cs s := by
  intro s
  induction s with
  | nil =>
    show matchAtoms (litAtoms cs) [] false = containsL (lowerL cs) (lowerL [])
    rw [matchAtoms_lits_eq,
        show matchAtoms [] (([] : List Char).drop cs.length) false = true from rfl,
        Bool.and_true]
    rfl
  | cons c t ih =>
    show (matchAtoms (litAtoms cs) (c :: t) false || reTest ⟨litAtoms cs, false⟩ t)
        = containsL (lowerL cs) (lowerL (c :: t))
    rw [ih, matchAtoms_lits_eq,
        show matchAtoms [] ((c :: t).drop cs.length) false = true from rfl,
        Bool.and_true]
    rfl

theorem reTest_lits_anchor (cs : List Char) :
    ∀ s : List Char, reTest ⟨litAtoms cs, true⟩ s = endsWithCI cs s := by
  have key : ∀ s : List Char, matchAtoms (litAtoms cs) s true = (lowerL cs == lowerL s) := by
    intro s
    rw [matchAtoms_lits_eq]
    have h1 : matchAtoms [] (s.drop cs.length) true = (s.drop cs.length).isEmpty := rfl
    have h2 : (lowerL s).drop (lowerL cs).length = lowerL (s.drop cs.length) := by
      simp [lowerL]
    have h3 : (s.drop cs.length).isEmpty = (lowerL (s.drop cs.length)).isEmpty := by
      cases h : s.drop cs.length <;> simp [lowerL]
    rw [h1, h3, ← h2, prefix_drop_isEmpty_eq]
  intro s
  induction s with
  | nil =>
    show matchAtoms (litAtoms cs) [] true = endsWithL (lowerL cs) (lowerL [])
    rw [key]
    rfl
  | cons c t ih =>
    show (matchAtoms (litAtoms cs) (c :: t) true || reTest ⟨litAtoms cs, true⟩ t)
        = endsWithL (lowerL cs) (lowerL (c :: t))
    rw [key, ih]
    rfl

theorem matchAtoms_opt (c : Char) (rest : List Atom) (s : List Char) (ae : Bool) :
    matchAtoms (Atom.opt c :: rest) s ae
      = (matchAtoms (Atom.lit c :: rest) s ae || matchAtoms rest s ae) := by
  cases s <;> rfl

theorem matchAtoms_docsOpt (s : List Char) :
    matchAtoms (litAtoms "doc".toList ++ [Atom.opt 's'] ++ litAtoms "/".toList) s false
      = ((lowerL "doc/".toList).isPrefixOf (lowerL s)
          || (lowerL "docs/".toList).isPrefixOf (lowerL s)) := by
  have e1 : litAtoms "doc".toList ++ [Atom.opt 's'] ++ litAtoms "/".toList
      = litAtoms "doc".toList ++ (Atom.opt 's' :: litAtoms "/".toList) := by
    simp
  rw [e1, matchAtoms_append_lits, matchAtoms_opt]
  have e2 : Atom.lit 's' :: litAtoms "/".toList = litAtoms "s/".toList := rfl
  rw [e2, matchAtoms_lits_eq, matchAtoms_lits_eq]
  rw [show ∀ x : List Char, matchAtoms [] x false = true from fun _ => rfl,
      show ∀ x : List Char, matchAtoms [] x false = true from fun _ => rfl]
  rw [Bool.and_true, Bool.and_true]
  rw [show lowerL "doc/".toList = lowerL "doc".toList ++ lowerL "/".toList from rfl,
      show lowerL "docs/".toList = lowerL "doc".toList ++ lowerL "s/".toList from rfl]
  rw [isPrefixOf_append_eq, isPrefixOf_append_eq]
  have e3 : (lowerL s).drop (lowerL "doc".toList).length = lowerL (s.drop "doc".toList.length) := by
    simp [lowerL]
  rw [e3, Bool.and_or_distrib_left, Bool.or_comm]

theorem bool_or_or_swap (a b c d : Bool) : ((a || b) || (c || d)) = ((a || c) || (b || d)) := by
  cases a <;> cases b <;> cases c <;> cases d <;> rfl

theorem containsCI_def (pat s : List Char) : containsCI pat s = containsL (lowerL pat) (lowerL s) := rfl

theorem reTest_docsOpt :
    ∀ s : List Char,
      reTest ⟨litAtoms "doc".toList ++ [Atom.opt 's'] ++ litAtoms "/".toList, false⟩ s
        = (containsCI "doc/".toList s || containsCI "docs/".toList s) := by
  intro s
  induction s with
  | nil =>
    show matchAtoms (litAtoms "doc".toList ++ [Atom.opt 's'] ++ litAtoms "/".toList) [] false
        = (containsL (lowerL "doc/".toList) (lowerL [])
            || containsL (lowerL "docs/".toList) (lowerL []))
    rw [matchAtoms_docsOpt]
    rfl
  | cons c t ih =>
    show (matchAtoms (litAtoms "doc".toList ++ [Atom.opt 's'] ++ litAtoms "/".toList)
            (c :: t) false
          || reTest ⟨litAtoms "doc".toList ++ [Atom.opt 's'] ++ litAtoms "/".toList, false⟩ t)
        = (containsL (lowerL "doc/".toList) (lowerL (c :: t))
            || containsL (lowerL "docs/".toList) (lowerL (c :: t)))
    have hc : ∀ pat : List Char,
        containsL pat (lowerL (c :: t))
          = (pat.isPrefixOf (lowerL (c :: t)) || containsL pat (lowerL t)) := fun _ => rfl
    rw [matchAtoms_docsOpt, ih, containsCI_def, containsCI_def,
        hc (lowerL "doc/".toList), hc (lowerL "docs/".toList)]
    exact bool_or_or_swap _ _ _ _

/-- C7 (amended): the documentation predicate holds iff the path
(case-insensitively) ends in `.md`, `.rst` or `.txt`, or contains
`readme`, `changelog`, `contributing` or `license` anywhere in the path
(not only in the filename), or contains the substring `doc/` or `docs/`
anywhere (not necessarily as a whole directory segment). -/
theorem docMatch_characterization (path : List Char) :
    docMatch path
      = (endsWithCI ".md".toList path || endsWithCI ".rst".toList path
          || endsWithCI ".txt".toList path || containsCI "readme".toList path
          || containsCI "changelog".toList path || containsCI "contributing".toList path
          || containsCI "license".toList path || containsCI "doc/".toList path
          || containsCI "docs/".toList path) := by
  show (reTest ⟨litAtoms ".md".toList, true⟩ path
      || (reTest ⟨litAtoms ".rst".toList, true⟩ path
      || (reTest ⟨litAtoms ".txt".toList, true⟩ path
      || (reTest ⟨litAtoms "readme".toList, false⟩ path
      || (reTest ⟨litAtoms "changelog".toList, false⟩ path
      || (reTest ⟨litAtoms "contributing".toList, false⟩ path
      || (reTest ⟨litAtoms "license".toList, false⟩ path
      || (reTest ⟨litAtoms "doc".toList ++ [Atom.opt 's'] ++ litAtoms "/".toList, false⟩ path
      || false)))))))) = _
  rw [reTest_lits_anchor ".md".toList, reTest_lits_anchor ".rst".toList,
      reTest_lits_anchor ".txt".toList, reTest_lits "readme".toList,
      reTest_lits "changelog".toList, reTest_lits "contributing".toList,
      reTest_lits "license".toList, reTest_docsOpt, Bool.or_false]
  simp only [Bool.or_assoc]

set_option maxRecDepth 8192 in
/-- C7 counterexample: the claim as stated is false.  For the path
`readme/a.py` the code's documentation predicate is true (the pattern
`/readme/i` is tested against the whole relative path), while the claimed
predicate is false: the filename `a.py` contains no keyword, `readme` is a
directory segment but not `docs`/`doc`, and the extension matches none of
`.md`/`.rst`/`.txt`. -/
theorem docMatch_spec_counterexample :
    docMatch "readme/a.py".toList = true
    ∧ docPredSpec "readme/a.py".toList = false
    ∧ lastSegment "readme/a.py".toList = "a.py".toList
    ∧ dirSegments "readme/a.py".toList = ["readme".toList] :=
  ⟨by decide, by decide, by decide, by decide⟩

theorem codeSkip_contains_eq (n : List Char) :
    codeSkipDirs.contains n
      = (docSkipDirs.contains n || n == "target".toList || n == "__pycache__".toList) := by
  apply Bool.eq_iff_iff.mpr
  simp [docSkipDirs, codeSkipDirs]
  tauto

theorem scanList_skip_eq :
    ∀ (pre : List Char) (es : List FsEntry), noExtraDirs es = true →
      scanList docSkipDirs pre es = scanList codeSkipDirs pre es := by
  intro p e
  refine scanList.induct docSkipDirs
    (motive := fun pre es => noExtraDirs es = true →
      scanList docSkipDirs pre es = scanList codeSkipDirs pre es) ?_ ?_ ?_ p e
  · intro pre _
    simp [scanList]
  · intro pre n rest ih h
    have h' : noExtraDirs rest = true := by simpa [noExtraDirs] using h
    simp only [scanList]
    rw [ih h']
  · intro pre n sub rest ihsub ihrest h
    simp only [noExtraDirs, Bool.and_eq_true, Bool.not_eq_true'] at h
    obtain ⟨⟨⟨ht, hp⟩, hs⟩, hr⟩ := h
    have hcn : codeSkipDirs.contains n = docSkipDirs.contains n := by
      rw [codeSkip_contains_eq n, ht, hp]
      simp
    simp only [scanList]
    rw [hcn, ihrest hr]
    by_cases hc : docSkipDirs.contains n = true
    · rw [if_pos hc, if_pos hc]
    · rw [if_neg hc, if_neg hc, ihsub hs]

/-- C6 (amended): `findDocumentationFiles` and `findCodeFiles` run two
separate traversals whose skip lists differ — the code scan additionally
skips `target` and `__pycache__` subtrees.  On a tree containing no
directory with either name the two traversals visit exactly the same files
in the same order, and each find function is exactly that shared visited
list filtered by its own predicate (so one file can appear in both
outputs). -/
theorem find_functions_traversal (es : List FsEntry) (h : noExtraDirs es = true) :
    scanList docSkipDirs [] es = scanList codeSkipDirs [] es
    ∧ findDocumentationFiles es = ((scanList docSkipDirs [] es).filter docMatch).take 50
    ∧ findCodeFiles es = ((scanList docSkipDirs [] es).filter codeMatch).take 50 := by
  refine ⟨scanList_skip_eq [] es h, rfl, ?_⟩
  rw [findCodeFiles, scanList_skip_eq [] es h]

/-- C6 witness: on a small tree with no `target`/`__pycache__` directory
the two traversals agree. -/
theorem find_functions_traversal_witness :
    scanList docSkipDirs [] exPlainTree = scanList codeSkipDirs [] exPlainTree
    ∧ findDocumentationFiles exPlainTree
        = ((scanList docSkipDirs [] exPlainTree).filter docMatch).take 50
    ∧ findCodeFiles exPlainTree
        = ((scanList docSkipDirs [] exPlainTree).filter codeMatch).take 50 :=
  find_functions_traversal exPlainTree (by simp [exPlainTree, noExtraDirs])

/-- C6 counterexample: the claim as stated is false — the file
`target/notes.md` is reachable by the documentation scan's traversal but
excluded from the code scan's traversal, because only the latter's skip
list contains `target`. -/
theorem scan_traversals_differ :
    scanList docSkipDirs [] exTargetTree = ["target/notes.md".toList]
    ∧ scanList codeSkipDirs [] exTargetTree = []
    ∧ findDocumentationFiles exTargetTree = ["target/notes.md".toList]
    ∧ findCodeFiles exTargetTree = [] := by
  have hdoc : scanList docSkipDirs [] exTargetTree = ["target/notes.md".toList] := by
    simp only [exTargetTree, scanList]
    rw [if_neg (by decide)]
    decide
  have hcode : scanList codeSkipDirs [] exTargetTree = [] := by
    simp only [exTargetTree, scanList]
    rw [if_pos (by decide)]
    decide
  refine ⟨hdoc, hcode, ?_, ?_⟩
  · rw [findDocumentationFiles, hdoc]
    decide
  · rw [findCodeFiles, hcode]
    decide

theorem severityOrder_inj (s t : Severity) (h : severityOrder s = severityOrder t) : s = t := by
  cases s <;> cases t <;> first | rfl | simp [severityOrder] at h

theorem issueCompare_le_iff (a b : DocumentationIssue) :
    issueCompare a b ≤ 0 ↔ issueLe a b := by
  by_cases h : a.severity = b.severity
  · simp [issueCompare, issueLe, h]
  · have hne : severityOrder a.severity ≠ severityOrder b.severity :=
      fun he => h (severityOrder_inj _ _ he)
    simp [issueCompare, issueLe, h]
    omega

theorem issueLe_trans (a b c : DocumentationIssue) (h1 : issueLe a b) (h2 : issueLe b c) :
    issueLe a c := by
  rcases h1 with h1 | ⟨h1, e1⟩ <;> rcases h2 with h2 | ⟨h2, e2⟩
  · exact Or.inl (lt_trans h1 h2)
  · left
    rw [← h2]
    exact h1
  · left
    rw [h1]
    exact h2
  · exact Or.inr ⟨h1.trans h2, le_trans e1 e2⟩

theorem issueLe_total (a b : DocumentationIssue) : issueLe a b ∨ issueLe b a := by
  by_cases h : a.severity = b.severity
  · rcases le_total (effortOrder a.effort) (effortOrder b.effort) with he | he
    · exact Or.inl (Or.inr ⟨h, he⟩)
    · exact Or.inr (Or.inr ⟨h.symm, he⟩)
  · have hne : severityOrder a.severity ≠ severityOrder b.severity :=
      fun he => h (severityOrder_inj _ _ he)
    rcases Nat.lt_or_ge (severityOrder a.severity) (severityOrder b.severity) with hlt | hge
    · exact Or.inl (Or.inl hlt)
    · exact Or.inr (Or.inl (by omega))

theorem issueLe_of_key_eq (a b : DocumentationIssue) (hs : a.severity = b.severity)
    (he : a.effort = b.effort) : issueLe a b := by
  right
  rw [he]
  exact ⟨hs, le_refl _⟩

/-- C2: the ranker's sort is a permutation of its input, pairwise ordered
by severity (`high` before `medium` before `low`) with effort (`low`
before `medium` before `high`) breaking ties, and stable: the sublist of
issues with any fixed severity/effort key is exactly the input's sublist
with that key, in input order. -/
theorem sortIssues_spec (l : List DocumentationIssue) :
    List.Perm (sortIssues l) l
    ∧ List.Pairwise issueLe (sortIssues l)
    ∧ ∀ (s : Severity) (e : Effort),
        (sortIssues l).filter (fun i => decide (i.severity = s ∧ i.effort = e))
          = l.filter (fun i => decide (i.severity = s ∧ i.effort = e)) := by
  have hletrans : ∀ a b c : DocumentationIssue,
      decide (issueCompare a b ≤ 0) → decide (issueCompare b c ≤ 0) →
        decide (issueCompare a c ≤ 0) := by
    intro a b c hab hbc
    simp only [decide_eq_true_eq, issueCompare_le_iff] at hab hbc ⊢
    exact issueLe_trans a b c hab hbc
  have hletotal : ∀ a b : DocumentationIssue,
      decide (issueCompare a b ≤ 0) || decide (issueCompare b a ≤ 0) := by
    intro a b
    simp only [Bool.or_eq_true, decide_eq_true_eq, issueCompare_le_iff]
    exact issueLe_total a b
  refine ⟨List.mergeSort_perm l _, ?_, ?_⟩
  · have hs := List.sorted_mergeSort hletrans hletotal l
    exact hs.imp (fun {a b} hab => (issueCompare_le_iff a b).mp (by simpa using hab))
  · intro s e
    have hsub : List.Sublist (l.filter (fun i => decide (i.severity = s ∧ i.effort = e))) l :=
      List.filter_sublist l
    have hpair : (l.filter (fun i => decide (i.severity = s ∧ i.effort = e))).Pairwise
        (fun a b => decide (issueCompare a b ≤ 0)) := by
      apply List.pairwise_of_forall_mem_list
      intro a ha b hb
      have hpa := (List.mem_filter.mp ha).2
      have hpb := (List.mem_filter.mp hb).2
      simp only [decide_eq_true_eq] at hpa hpb
      show decide (issueCompare a b ≤ 0) = true
      rw [decide_eq_true_eq, issueCompare_le_iff]
      exact issueLe_of_key_eq a b (hpa.1.trans hpb.1.symm) (hpa.2.trans hpb.2.symm)
    have hsub2 : List.Sublist (l.filter (fun i => decide (i.severity = s ∧ i.effort = e)))
        (sortIssues l) :=
      List.sublist_mergeSort hletrans hletotal hpair hsub
    have hfsub := hsub2.filter (fun i => decide (i.severity = s ∧ i.effort = e))
    have hff : ((l.filter (fun i => decide (i.severity = s ∧ i.effort = e))).filter
          (fun i => decide (i.severity = s ∧ i.effort = e)))
        = l.filter (fun i => decide (i.severity = s ∧ i.effort = e)) := by
      apply List.filter_eq_self.mpr
      intro a ha
      exact (List.mem_filter.mp ha).2
    rw [hff] at hfsub
    have hlen : (((sortIssues l).filter (fun i => decide (i.severity = s ∧ i.effort = e))).length)
        = ((l.filter (fun i => decide (i.severity = s ∧ i.effort = e))).length) :=
      ((List.mergeSort_perm l _).filter _).length_eq
    exact (hfsub.eq_of_length hlen.symm).symm
